import Mathlib

/-!
# MockkHttp mitmproxy addon — verification of the control-plane core

Shallow embedding of `src/main/python/mitmproxy_addon/debug_interceptor.py`:
the resume handler, the intercepted-flow registry, mock application, the
mock-match proxy endpoint, the mock-rule fingerprint, and content decoding.

JSON values are modelled by an inductive `Json`; Python byte strings by
`List Nat` (each entry a byte value); Python `str` results by `List Nat`
(each entry a Unicode code point) or by Lean `String` where convenient.
-/

/-- JSON values, as produced by Python's `json.loads`. Numbers are modelled
as integers (the payloads used by the addon carry only integral numbers). -/
inductive Json where
  | null : Json
  | bool (b : Bool) : Json
  | num (n : Int) : Json
  | str (s : String) : Json
  | arr (xs : List Json) : Json
  | obj (kvs : List (String × Json)) : Json

/-- Python truthiness (`if not flow_id`): `None`, `False`, `0`, `""`, `[]`,
`{}` are falsy, everything else truthy. -/
def Json.truthy : Json → Bool
  | .null => false
  | .bool b => b
  | .num n => n != 0
  | .str s => s != ""
  | .arr [] => false
  | .arr (_ :: _) => true
  | .obj [] => false
  | .obj (_ :: _) => true

/-- Key lookup in a parsed JSON object's item list (`data.get(key)`;
`json.loads` yields a dict, so keys are distinct and first lookup is the
dict lookup). -/
def lookupJ (kvs : List (String × Json)) (k : String) : Option Json :=
  match kvs with
  | [] => none
  | (k', v) :: rest => if k' = k then some v else lookupJ rest k

/-! ## UTF-8 codec (`content_str.encode('utf-8')`, `content.decode('utf-8')`) -/

/-- UTF-8 encoding of one Unicode code point (assumed a valid scalar value,
as Python `str` characters are). -/
def utf8EncodeChar (c : Nat) : List Nat :=
  if c < 0x80 then [c]
  else if c < 0x800 then [0xC0 + c / 0x40, 0x80 + c % 0x40]
  else if c < 0x10000 then
    [0xE0 + c / 0x1000, 0x80 + (c / 0x40) % 0x40, 0x80 + c % 0x40]
  else
    [0xF0 + c / 0x40000, 0x80 + (c / 0x1000) % 0x40,
     0x80 + (c / 0x40) % 0x40, 0x80 + c % 0x40]

/-- UTF-8 encoding of a code-point sequence (Python `str.encode('utf-8')`). -/
def utf8Encode (s : List Nat) : List Nat :=
  (s.map utf8EncodeChar).flatten

/-- Scalar value carried by a two-byte UTF-8 sequence. -/
def utf8Val2 (b0 b1 : Nat) : Nat := (b0 - 0xC0) * 0x40 + (b1 - 0x80)

/-- Scalar value carried by a three-byte UTF-8 sequence. -/
def utf8Val3 (b0 b1 b2 : Nat) : Nat :=
  (b0 - 0xE0) * 0x1000 + (b1 - 0x80) * 0x40 + (b2 - 0x80)

/-- Scalar value carried by a four-byte UTF-8 sequence. -/
def utf8Val4 (b0 b1 b2 b3 : Nat) : Nat :=
  (b0 - 0xF0) * 0x40000 + (b1 - 0x80) * 0x1000 + (b2 - 0x80) * 0x40 +
    (b3 - 0x80)

/-- Strict UTF-8 decoding (Python `bytes.decode('utf-8')`): rejects stray
continuation bytes, the overlong lead bytes C0/C1, overlong longer forms,
surrogate code points, lead bytes ≥ F5 and code points above U+10FFFF, and
truncated sequences; `none` models `UnicodeDecodeError`. The arms are
split on how many bytes remain so that every recursive call is on a
structural tail; a lead byte announcing more continuation bytes than
remain is a truncated sequence and falls into an arm's final `none`. -/
def utf8Decode : List Nat → Option (List Nat)
  | [] => some []
  | [b0] =>
    if b0 < 0x80 then (utf8Decode []).map (fun s => b0 :: s) else none
  | [b0, b1] =>
    if b0 < 0x80 then (utf8Decode [b1]).map (fun s => b0 :: s)
    else if b0 < 0xC2 then none
    else if b0 < 0xE0 then
      if 0x80 ≤ b1 ∧ b1 < 0xC0 then
        (utf8Decode []).map (fun s => utf8Val2 b0 b1 :: s)
      else none
    else none
  | [b0, b1, b2] =>
    if b0 < 0x80 then (utf8Decode [b1, b2]).map (fun s => b0 :: s)
    else if b0 < 0xC2 then none
    else if b0 < 0xE0 then
      if 0x80 ≤ b1 ∧ b1 < 0xC0 then
        (utf8Decode [b2]).map (fun s => utf8Val2 b0 b1 :: s)
      else none
    else if b0 < 0xF0 then
      if (0x80 ≤ b1 ∧ b1 < 0xC0) ∧ (0x80 ≤ b2 ∧ b2 < 0xC0) then
        if 0x800 ≤ utf8Val3 b0 b1 b2 ∧
           (utf8Val3 b0 b1 b2 < 0xD800 ∨ 0xE000 ≤ utf8Val3 b0 b1 b2) then
          (utf8Decode []).map (fun s => utf8Val3 b0 b1 b2 :: s)
        else none
      else none
    else none
  | b0 :: b1 :: b2 :: b3 :: rest =>
    if b0 < 0x80 then
      (utf8Decode (b1 :: b2 :: b3 :: rest)).map (fun s => b0 :: s)
    else if b0 < 0xC2 then none
    else if b0 < 0xE0 then
      if 0x80 ≤ b1 ∧ b1 < 0xC0 then
        (utf8Decode (b2 :: b3 :: rest)).map (fun s => utf8Val2 b0 b1 :: s)
      else none
    else if b0 < 0xF0 then
      if (0x80 ≤ b1 ∧ b1 < 0xC0) ∧ (0x80 ≤ b2 ∧ b2 < 0xC0) then
        if 0x800 ≤ utf8Val3 b0 b1 b2 ∧
           (utf8Val3 b0 b1 b2 < 0xD800 ∨ 0xE000 ≤ utf8Val3 b0 b1 b2) then
          (utf8Decode (b3 :: rest)).map (fun s => utf8Val3 b0 b1 b2 :: s)
        else none
      else none
    else if b0 < 0xF5 then
      if (0x80 ≤ b1 ∧ b1 < 0xC0) ∧ (0x80 ≤ b2 ∧ b2 < 0xC0) ∧
         (0x80 ≤ b3 ∧ b3 < 0xC0) then
        if 0x10000 ≤ utf8Val4 b0 b1 b2 b3 ∧ utf8Val4 b0 b1 b2 b3 < 0x110000 then
          (utf8Decode rest).map (fun s => utf8Val4 b0 b1 b2 b3 :: s)
        else none
      else none
    else none

/-- Latin-1 decoding (`content.decode('latin-1')`): total, byte n maps to
code point n. Modelled with the same `Option` shape as the `try` in the
source; it never fails. -/
def latin1Decode (b : List Nat) : Option (List Nat) := some b

/-- Code points of the lowercase hex digits, as produced by `bytes.hex()`. -/
def hexDigitCode (n : Nat) : Nat := if n < 10 then 48 + n else 87 + n

/-- `content.hex()` as a code-point sequence. -/
def toHexCodes (b : List Nat) : List Nat :=
  b.flatMap (fun x => [hexDigitCode (x / 16), hexDigitCode (x % 16)])

/-- `DebugInterceptor._decode_content`: empty bytes give `""`; otherwise try
strict UTF-8, then Latin-1, then fall back to hex. -/
def decode_content (content : List Nat) : List Nat :=
  if content.isEmpty then []
  else
    match utf8Decode content with
    | some s => s
    | none =>
      match latin1Decode content with
      | some s => s
      | none => toHexCodes content

/-- The code points of a Lean string (every Lean `Char` is a valid Unicode
scalar value, like every Python `str` character). -/
def strCodes (s : String) : List Nat := s.data.map Char.toNat

/-- `s.encode('utf-8')` for a Python string modelled as a Lean `String`. -/
def strEncode (s : String) : List Nat := utf8Encode (strCodes s)

/-! ## Data model: responses, flows, and the addon's state -/

/-- The mutable part of a mitmproxy `Response` that the addon touches.
`status_code` is a `Json` value because Python assigns whatever value the
inbound JSON carried, without validation. Headers are an ordered list of
name/value pairs. -/
structure Response where
  status_code : Json
  headers : List (String × String)
  content : List Nat

/-- A mitmproxy `HTTPFlow` as the addon sees it: the response (absent until
the upstream answers), the `intercept()` flag, and whether the resume event
has fired (`wait_for_resume` returns once it has). -/
structure FlowObj where
  response : Option Response
  intercepted : Bool
  resumed : Bool

/-- Global addon state: the heap of live flow objects keyed by flow id, and
the keys of the global `intercepted_flows` dictionary. The dictionary's
values are references into the heap, so mutation through either alias is a
heap update. -/
structure MState where
  heap : List (String × FlowObj)
  registry : List String

/-- Assoc-list lookup by flow id (dictionary read). -/
def heapGet (h : List (String × FlowObj)) (id : String) : Option FlowObj :=
  match h with
  | [] => none
  | (k, f) :: rest => if k = id then some f else heapGet rest id

/-- Update the flow object stored under `id` (mutation of the shared
object). -/
def heapSet (h : List (String × FlowObj)) (id : String) (f : FlowObj) :
    List (String × FlowObj) :=
  match h with
  | [] => []
  | (k, g) :: rest => if k = id then (k, f) :: rest else (k, g) :: heapSet rest id f

/-- Drop every entry carrying the given header name. -/
def removeHeader (k : String) : List (String × String) → List (String × String)
  | [] => []
  | p :: rest =>
    if p.1 = k then removeHeader k rest else p :: removeHeader k rest

/-- mitmproxy `flow.response.headers[key] = value`: per-key upsert — the
first entry with that name is replaced in place and any further entries
with the same name are dropped; an unknown name is appended. -/
def setHeader (k v : String) : List (String × String) → List (String × String)
  | [] => [(k, v)]
  | (k', v') :: rest =>
    if k' = k then (k, v) :: removeHeader k rest
    else (k', v') :: setHeader k v rest

/-- The header loop's net effect on a header list, for a string-valued
header object. -/
def applyHeaderList (base : List (String × String))
    (hs : List (String × String)) : List (String × String) :=
  hs.foldl (fun acc p => setHeader p.1 p.2 acc) base

/-- Python `'key' in mod`: membership test on a dict, substring test on a
str, element test on a list; raises `TypeError` on other values (modelled
by `none`). -/
def pyIn (key : String) : Json → Option Bool
  | .obj kvs => some ((lookupJ kvs key).isSome)
  | .str s => some (decide (List.IsInfix key.data s.data))
  | .arr xs => some (xs.any (fun j => match j with | .str s => s = key | _ => false))
  | _ => none

/-- Python `mod[key]`: dict indexing; indexing a str or list with a str key
raises (modelled by `none`; unreachable after a successful `pyIn` on a
dict). -/
def pyGet (key : String) : Json → Option Json
  | .obj kvs => lookupJ kvs key
  | _ => none

/-! ## Mutation application (`handle_resume` lines 156–174, `response`
mockk branch lines 335–343)

Each stage returns the state reached together with `none` (no exception) or
`some msg` (a raised exception); a raised exception leaves the mutations
already performed in place, exactly as in Python. -/

/-- `if 'status_code' in mod: flow.response.status_code = mod['status_code']`.
Assigning through an absent response raises `AttributeError`. -/
def applyStatusField (resp : Option Response) (mod : Json) :
    Option Response × Option String :=
  match pyIn "status_code" mod with
  | none => (resp, some "TypeError: argument of type is not iterable")
  | some false => (resp, none)
  | some true =>
    match pyGet "status_code" mod with
    | none => (resp, some "TypeError: indices must be integers")
    | some v =>
      match resp with
      | some r => (some { r with status_code := v }, none)
      | none => (none, some "AttributeError: NoneType has no attribute status_code")

/-- The loop `for key, value in mod['headers'].items():
flow.response.headers[key] = value`. Items already processed stay applied
when a later item raises. A non-str value raises inside the header
assignment; an absent response raises on the first item. -/
def setHeaderItems (resp : Option Response) :
    List (String × Json) → Option Response × Option String
  | [] => (resp, none)
  | (k, v) :: rest =>
    match resp with
    | none => (none, some "AttributeError: NoneType has no attribute headers")
    | some r =>
      match v with
      | .str s => setHeaderItems (some { r with headers := setHeader k s r.headers }) rest
      | _ => (some r, some "TypeError: expected str or bytes")

/-- `if 'headers' in mod: for key, value in mod['headers'].items(): ...`.
Calling `.items()` on a non-dict raises `AttributeError`. -/
def applyHeadersField (resp : Option Response) (mod : Json) :
    Option Response × Option String :=
  match pyIn "headers" mod with
  | none => (resp, some "TypeError: argument of type is not iterable")
  | some false => (resp, none)
  | some true =>
    match pyGet "headers" mod with
    | none => (resp, some "TypeError: indices must be integers")
    | some hv =>
      match hv with
      | .obj kvs => setHeaderItems resp kvs
      | _ => (resp, some "AttributeError: object has no attribute items")

/-- `if 'content' in mod: content_str = mod['content'];
flow.response.content = content_str.encode('utf-8')`. A non-str content
raises on `.encode`; an absent response raises on the assignment. -/
def applyContentField (resp : Option Response) (mod : Json) :
    Option Response × Option String :=
  match pyIn "content" mod with
  | none => (resp, some "TypeError: argument of type is not iterable")
  | some false => (resp, none)
  | some true =>
    match pyGet "content" mod with
    | none => (resp, some "TypeError: indices must be integers")
    | some cv =>
      match cv with
      | .str s =>
        match resp with
        | some r => (some { r with content := strEncode s }, none)
        | none => (none, some "AttributeError: NoneType has no attribute content")
      | _ => (resp, some "AttributeError: object has no attribute encode")

/-- The whole mutation-application block, in source order: status code,
then headers, then content; the first exception aborts the rest but keeps
earlier assignments. -/
def applyModifiedResponse (resp : Option Response) (mod : Json) :
    Option Response × Option String :=
  match applyStatusField resp mod with
  | (r1, some e) => (r1, some e)
  | (r1, none) =>
    match applyHeadersField r1 mod with
    | (r2, some e) => (r2, some e)
    | (r2, none) => applyContentField r2 mod

/-! ## The control server's `POST /resume` handler -/

/-- Outcome of a control-server handler: `ok code body` models
`send_response(code)` followed by a JSON body write; `err code` models
`send_error(code, ...)`. -/
inductive HResp where
  | ok (code : Nat) (body : Json) : HResp
  | err (code : Nat) : HResp

/-- `flow.resume()`: a no-op unless the flow is intercepted; otherwise it
clears the intercept flag and fires the resume event exactly once. -/
def fireResume (f : FlowObj) : FlowObj :=
  if f.intercepted then { f with intercepted := false, resumed := true } else f

/-- The JSON body `{'status': 'resumed', 'flow_id': flow_id}`. -/
def resumedBody (fid : String) : Json :=
  .obj [("status", .str "resumed"), ("flow_id", .str fid)]

/-- `ControlHTTPHandler.handle_resume`. The input is the parsed request
body: `none` models a body `json.loads` rejects (or an undecodable body);
every exception escaping the `try` block is answered with
`send_error(500)`, leaving whatever mutations already happened in place.

Branches, in source order: a non-dict body raises on `data.get` (500);
a missing or falsy `flow_id` answers 400; an unhashable `flow_id` (list or
dict) raises `TypeError` in the `in intercepted_flows` test (500); a
hashable id that is not a registry key answers 404 with no state change;
otherwise the optional `modified_response` is applied to the shared flow
object, then `flow.resume()` fires and the handler answers 200. -/
def handleResume (st : MState) (body : Option Json) : HResp × MState :=
  match body with
  | none => (.err 500, st)
  | some data =>
    match data with
    | .obj kvs =>
      match lookupJ kvs "flow_id" with
      | none => (.err 400, st)
      | some fid =>
        if fid.truthy then
          match fid with
          | .str s =>
            if s ∈ st.registry then
              match heapGet st.heap s with
              | some fobj =>
                match lookupJ kvs "modified_response" with
                | some mod =>
                  match applyModifiedResponse fobj.response mod with
                  | (resp', some _) =>
                    (.err 500, { st with heap := heapSet st.heap s { fobj with response := resp' } })
                  | (resp', none) =>
                    (.ok 200 (resumedBody s),
                     { st with heap := heapSet st.heap s (fireResume { fobj with response := resp' }) })
                | none =>
                  (.ok 200 (resumedBody s),
                   { st with heap := heapSet st.heap s (fireResume fobj) })
              | none => (.err 500, st)
            else (.err 404, st)
          | .arr _ => (.err 500, st)
          | .obj _ => (.err 500, st)
          | _ => (.err 404, st)
        else (.err 400, st)
    | _ => (.err 500, st)

/-! ## Registry insertion (`intercepted_flows[flow.id] = flow`) -/

/-- Base-line dictionary assignment on the registry viewed as an assoc list
of entries: an existing key's entry is silently replaced in place, a new
key is appended. This is exactly `intercepted_flows[flow.id] = flow` —
there is no presence check in the source. -/
def registryPut (reg : List (String × FlowObj)) (id : String) (f : FlowObj) :
    List (String × FlowObj) :=
  match reg with
  | [] => [(id, f)]
  | (k, g) :: rest =>
    if k = id then (k, f) :: rest else (k, g) :: registryPut rest id f

/-! ## The control server's `GET /mock-match` handler -/

/-- What reaching the controller (`urlopen` on the plugin's `/mock-match`)
can yield: a 200 with a body, a non-200 status, or a raised exception
(connection refused, timeout, `HTTPError` — all caught by the bare
`except`). -/
inductive CtrlResult where
  | ok200 (body : Json) : CtrlResult
  | non200 (code : Nat) : CtrlResult
  | failure : CtrlResult

/-- `params.get(key, [''])[0]` over the `parse_qs` result: the default is
`''` when the key is absent; `parse_qs` never produces an empty value
list, so the head is total on its outputs. -/
def qsFirst (params : List (String × List String)) (key : String) : String :=
  match params with
  | [] => ""
  | (k, vs) :: rest => if k = key then vs.headD "" else qsFirst rest key

/-- `ControlHTTPHandler.handle_mock_match`, given the parsed query
parameters and the outcome of the forwarded controller call: missing (or
blank, which `parse_qs` drops) `method`/`url` answer 400; a controller 200
is forwarded as 200 with the controller's body; a controller non-200 or any
failure reaching it degrades to 404 with body `{}`. -/
def handleMockMatch (params : List (String × List String)) (ctrl : CtrlResult) :
    HResp :=
  let method := qsFirst params "method"
  let url := qsFirst params "url"
  if method = "" ∨ url = "" then .err 400
  else
    match ctrl with
    | .ok200 body => .ok 200 body
    | .non200 _ => .ok 404 (.obj [])
    | .failure => .ok 404 (.obj [])

/-! ## The mockk-mode fingerprint (`check_for_mock_rule` lines 363–381) -/

/-- `parse_qs` grouping of decoded query pairs: keys in first-occurrence
order, each with the list of its values in query order. -/
def addQsPair (acc : List (String × List String)) (kv : String × String) :
    List (String × List String) :=
  if acc.any (fun p => p.1 = kv.1) then
    acc.map (fun p => if p.1 = kv.1 then (p.1, p.2 ++ [kv.2]) else p)
  else acc ++ [(kv.1, [kv.2])]

/-- `parse_qs(parsed_url.query)` on the already-split, already-unquoted
field pairs. -/
def groupQuery (q : List (String × String)) : List (String × List String) :=
  q.foldl addQsPair []

/-- The params dict built by `check_for_mock_rule`: method, host, path,
then one `query_<key>` entry per distinct query key carrying
`values[0] if values else ''` — the first value only. -/
def buildMockParams (method host path : String) (q : List (String × String)) :
    List (String × String) :=
  [("method", method), ("host", host), ("path", path)] ++
    (groupQuery q).map (fun p => ("query_" ++ p.1, p.2.headD ""))

/-! ## Well-formed mutations

`modified_response` payloads and mock rules have the schema
`{status_code?, headers?, content?}` with an integer status, a string-valued
header object and a string content. `toJson` renders one as the JSON object
the handlers receive. -/

structure Mutation where
  status_code : Option Int
  headers : Option (List (String × String))
  content : Option String

def Mutation.toJson (m : Mutation) : Json :=
  .obj ((match m.status_code with
         | some n => [("status_code", Json.num n)]
         | none => []) ++
        (match m.headers with
         | some hs => [("headers", Json.obj (hs.map (fun p => (p.1, Json.str p.2))))]
         | none => []) ++
        (match m.content with
         | some s => [("content", Json.str s)]
         | none => []))

/-! ## The debug-mode coordinator as a transition system

`DebugInterceptor.response` in debug mode runs, per flow: enter the hook;
`flow.intercept()` and `intercepted_flows[flow.id] = flow`; `await
send_to_plugin(...)` (an async gap before the wait); `await
flow.wait_for_resume()` (blocked until the resume event fires); then the
cleanup `if flow.id in intercepted_flows: del intercepted_flows[flow.id]`.
The control server's `handle_resume` runs on its own thread at any point.
-/

/-- Program counter of one flow's coordinator unit. -/
inductive Phase where
  | entered : Phase
  | registered : Phase
  | waiting : Phase
  | signaled : Phase
  | cleaned : Phase
deriving DecidableEq

/-- Machine state: the addon state plus each flow unit's program counter. -/
structure CState where
  core : MState
  pcs : List (String × Phase)

def pcOf (pcs : List (String × Phase)) (id : String) : Option Phase :=
  match pcs with
  | [] => none
  | (k, ph) :: rest => if k = id then some ph else pcOf rest id

def setPc (pcs : List (String × Phase)) (id : String) (ph : Phase) :
    List (String × Phase) :=
  match pcs with
  | [] => []
  | (k, ph') :: rest =>
    if k = id then (k, ph) :: rest else (k, ph') :: setPc rest id ph

/-- Initial state: no flows, empty `intercepted_flows`. -/
def initC : CState := ⟨⟨[], []⟩, []⟩

/-- The response hook is entered for a fresh flow carrying an upstream
response. -/
def doArrive (st : CState) (id : String) (r : Response) : CState :=
  ⟨⟨(id, ⟨some r, false, false⟩) :: st.core.heap, st.core.registry⟩,
   (id, .entered) :: st.pcs⟩

/-- `flow.intercept()` then `intercepted_flows[flow.id] = flow` (a
dictionary key assignment: the key set gains `id` if absent). -/
def doRegister (st : CState) (id : String) : CState :=
  let heap' :=
    match heapGet st.core.heap id with
    | some f => heapSet st.core.heap id { f with intercepted := true }
    | none => st.core.heap
  ⟨⟨heap',
    if id ∈ st.core.registry then st.core.registry else st.core.registry ++ [id]⟩,
   setPc st.pcs id .registered⟩

/-- The unit finishes publishing the snapshot and parks at
`await flow.wait_for_resume()`. -/
def doStartWait (st : CState) (id : String) : CState :=
  ⟨st.core, setPc st.pcs id .waiting⟩

/-- `wait_for_resume` returns: only enabled once the resume event fired. -/
def doObserve (st : CState) (id : String) : CState :=
  ⟨st.core, setPc st.pcs id .signaled⟩

/-- The cleanup: `if flow.id in intercepted_flows: del ...`. -/
def doCleanup (st : CState) (id : String) : CState :=
  ⟨⟨st.core.heap, st.core.registry.erase id⟩, setPc st.pcs id .cleaned⟩

def resumedOf (st : CState) (id : String) : Bool :=
  match heapGet st.core.heap id with
  | some f => f.resumed
  | none => false

/-- One step of the system: a coordinator unit advances, or the control
server services one `/resume` request. -/
inductive Step : CState → CState → Prop where
  | arrive (st : CState) (id : String) (r : Response)
      (h1 : pcOf st.pcs id = none) (h2 : heapGet st.core.heap id = none) :
      Step st (doArrive st id r)
  | register (st : CState) (id : String)
      (h : pcOf st.pcs id = some .entered) : Step st (doRegister st id)
  | startWait (st : CState) (id : String)
      (h : pcOf st.pcs id = some .registered) : Step st (doStartWait st id)
  | observe (st : CState) (id : String)
      (h : pcOf st.pcs id = some .waiting) (h2 : resumedOf st id = true) :
      Step st (doObserve st id)
  | cleanup (st : CState) (id : String)
      (h : pcOf st.pcs id = some .signaled) : Step st (doCleanup st id)
  | control (st : CState) (body : Option Json) :
      Step st ⟨(handleResume st.core body).2, st.pcs⟩

/-- States reachable from startup. -/
inductive Reachable : CState → Prop where
  | init : Reachable initC
  | step (st st' : CState) : Reachable st → Step st st' → Reachable st'

/-- A flow unit is suspended awaiting its resume signal precisely when it is
parked at the `wait_for_resume` point. -/
def Suspended (st : CState) (id : String) : Prop :=
  pcOf st.pcs id = some .waiting

/-! ## Concrete fixtures used by counterexamples and witnesses -/

/-- The values a query key carries, in query order. -/
def queryVals (k : String) (q : List (String × String)) : List String :=
  (q.filter (fun p => p.1 == k)).map Prod.snd

/-- A sample upstream response. -/
def exResp : Response := ⟨.num 200, [("A", "x")], [104]⟩

/-- A sample suspended flow object (intercepted, not yet resumed). -/
def exFlow : FlowObj := ⟨some exResp, true, false⟩

/-- Addon state with the single suspended flow `"f1"`. -/
def exState : MState := ⟨[("f1", exFlow)], ["f1"]⟩

/-- A suspended flow whose upstream response object is absent. -/
def exStateNoResp : MState := ⟨[("f1", ⟨none, true, false⟩)], ["f1"]⟩

/-- A resume body carrying no `modified_response`. -/
def exBodyPlain : Json := .obj [("flow_id", .str "f1")]

/-- A resume body whose `modified_response` has a valid `status_code`
followed by a malformed (non-string) `content`. -/
def exBodyBad : Json :=
  .obj [("flow_id", .str "f1"),
        ("modified_response",
         .obj [("status_code", .num 500), ("content", .num 123)])]

/-- A resume body whose `modified_response` carries only a status code. -/
def exBodyStatus : Json :=
  .obj [("flow_id", .str "f1"),
        ("modified_response", .obj [("status_code", .num 200)])]

/-- The machine state reached by: hook entry, registration, parking at the
wait, a successful `/resume`, and the unit observing the signal — the
moment after resumption but before the unit's cleanup. -/
def exSignaledSt : CState :=
  doObserve
    ⟨(handleResume (doStartWait (doRegister (doArrive initC "f1" exResp) "f1") "f1").core
        (some exBodyPlain)).2,
     (doStartWait (doRegister (doArrive initC "f1" exResp) "f1") "f1").pcs⟩
    "f1"

/-! # Helper lemmas -/

theorem heapGet_heapSet_self (h : List (String × FlowObj)) (id : String)
    (f g : FlowObj) (hg : heapGet h id = some g) :
    heapGet (heapSet h id f) id = some f := by
  induction h with
  | nil => simp [heapGet] at hg
  | cons hd tl ih =>
    obtain ⟨k, w⟩ := hd
    by_cases hk : k = id
    · simp [heapGet, heapSet, hk]
    · simp only [heapGet, heapSet, hk, if_false, if_neg hk] at hg ⊢
      exact ih hg

theorem heapGet_heapSet_other (h : List (String × FlowObj)) (id j : String)
    (f : FlowObj) (hne : j ≠ id) :
    heapGet (heapSet h id f) j = heapGet h j := by
  induction h with
  | nil => rfl
  | cons hd tl ih =>
    obtain ⟨k, w⟩ := hd
    by_cases hk : k = id
    · subst hk
      have hne' : ¬ (k = j) := fun hh => hne hh.symm
      simp [heapGet, heapSet, hne']
    · simp only [heapSet, if_neg hk, heapGet]
      split
      · rfl
      · exact ih

/-- `handle_resume` never touches the `intercepted_flows` key set: entry
removal is not part of the resume handler. -/
theorem handleResume_registry (st : MState) (body : Option Json) :
    (handleResume st body).2.registry = st.registry := by
  unfold handleResume
  repeat' (first | rfl | split)

/-! # Claims -/

/-- C3: for every transaction id absent from the registry, a resume call
with that id answers 404 and has no side effect at all — the returned state
is the input state: no flow is mutated, no resume signal fires, the
registry is unchanged. -/
theorem C3_resume_unknown_id_noop (st : MState) (kvs : List (String × Json))
    (s : String) (hfid : lookupJ kvs "flow_id" = some (.str s))
    (hne : s ≠ "") (habs : s ∉ st.registry) :
    handleResume st (some (.obj kvs)) = (.err 404, st) := by
  simp only [handleResume]
  rw [hfid]
  simp [Json.truthy, hne, habs]

theorem C3_resume_unknown_id_noop_witness :
    handleResume exState (some (.obj [("flow_id", .str "zzz")])) =
      (.err 404, exState) :=
  C3_resume_unknown_id_noop exState [("flow_id", .str "zzz")] "zzz" rfl
    (by decide) (by decide)

/-- C6 counterexample: inserting under an id already present in the
registry does not fail — the dictionary assignment silently replaces the
existing entry, which is no longer retrievable. -/
theorem C6_put_duplicate_counterexample :
    registryPut [("a", (⟨none, false, false⟩ : FlowObj))] "a" ⟨none, false, true⟩ =
      [("a", (⟨none, false, true⟩ : FlowObj))] ∧
    heapGet (registryPut [("a", (⟨none, false, false⟩ : FlowObj))] "a"
        ⟨none, false, true⟩) "a" ≠ some ⟨none, false, false⟩ := by
  refine ⟨rfl, ?_⟩
  intro hcontra
  simp [registryPut, heapGet, FlowObj.mk.injEq] at hcontra

/-- C6 amended: `intercepted_flows[flow.id] = flow` on an already-present
id silently replaces that entry in place (there is no `DuplicateKey`
failure path in the code) and leaves every other id's entry unchanged. -/
theorem registryPut_get_self (reg : List (String × FlowObj)) (id : String)
    (f : FlowObj) : heapGet (registryPut reg id f) id = some f := by
  induction reg with
  | nil => simp [registryPut, heapGet]
  | cons hd tl ih =>
    obtain ⟨k, w⟩ := hd
    by_cases hk : k = id
    · simp [registryPut, heapGet, hk]
    · simp only [registryPut, if_neg hk, heapGet]
      exact ih

theorem registryPut_get_other (reg : List (String × FlowObj)) (id j : String)
    (f : FlowObj) (hne : j ≠ id) :
    heapGet (registryPut reg id f) j = heapGet reg j := by
  have hne' : ¬ (id = j) := fun hh => hne hh.symm
  induction reg with
  | nil => simp [registryPut, heapGet, hne']
  | cons hd tl ih =>
    obtain ⟨k, w⟩ := hd
    by_cases hk : k = id
    · subst hk
      simp [registryPut, heapGet, hne']
    · simp only [registryPut, if_neg hk, heapGet]
      split
      · rfl
      · exact ih

theorem C6_put_duplicate_replaces (reg : List (String × FlowObj)) (id : String)
    (f g : FlowObj) (_h : heapGet reg id = some g) :
    heapGet (registryPut reg id f) id = some f ∧
    ∀ j, j ≠ id → heapGet (registryPut reg id f) j = heapGet reg j :=
  ⟨registryPut_get_self reg id f, fun j hne => registryPut_get_other reg id j f hne⟩

theorem C6_put_duplicate_replaces_witness :
    heapGet (registryPut [("a", (⟨none, false, false⟩ : FlowObj))] "a"
        ⟨none, false, true⟩) "a" = some ⟨none, false, true⟩ :=
  (C6_put_duplicate_replaces [("a", ⟨none, false, false⟩)] "a"
    ⟨none, false, true⟩ ⟨none, false, false⟩ rfl).1

/-- C5 counterexample: a resume body whose `modified_response` carries a
valid `status_code` and then a malformed `content` answers 500 yet leaves
the status-code mutation applied — the transaction is not unaffected. -/
theorem C5_malformed_partial_mutation_counterexample :
    (handleResume exState (some exBodyBad)).1 = .err 500 ∧
    heapGet (handleResume exState (some exBodyBad)).2.heap "f1" =
      some ⟨some ⟨.num 500, [("A", "x")], [104]⟩, true, false⟩ :=
  ⟨rfl, rfl⟩

/-- C5 amended: errors detected before any field is applied (unparsable
body, non-dict body, missing `flow_id`) answer 400/500 with the state
fully unchanged, and no resume request ever changes the registry's key
set; but a malformed `modified_response` field can leave the fields
processed before the fault applied — error atomicity holds for the
registry, not for the transaction. -/
theorem C5_resume_error_behavior :
    (∀ st : MState, handleResume st none = (.err 500, st)) ∧
    (∀ (st : MState) (xs : List Json),
      handleResume st (some (.arr xs)) = (.err 500, st)) ∧
    (∀ (st : MState) (kvs : List (String × Json)),
      lookupJ kvs "flow_id" = none →
      handleResume st (some (.obj kvs)) = (.err 400, st)) ∧
    (∀ (st : MState) (body : Option Json),
      (handleResume st body).2.registry = st.registry) := by
  refine ⟨fun st => rfl, fun st xs => rfl, fun st kvs h => ?_,
    fun st body => handleResume_registry st body⟩
  simp only [handleResume]
  rw [h]

theorem C5_resume_error_behavior_witness :
    handleResume exState (some (.obj [])) = (.err 400, exState) :=
  C5_resume_error_behavior.2.2.1 exState [] rfl

/-- C2 counterexample: a successful resume of the suspended flow `"f1"`
answers `{'status': 'resumed', ...}` yet leaves `"f1"` in the registry —
the resume operation itself performs no removal. -/
theorem C2_resume_keeps_entry_counterexample :
    (handleResume exState (some exBodyPlain)).1 = .ok 200 (resumedBody "f1") ∧
    (handleResume exState (some exBodyPlain)).2.registry = ["f1"] :=
  ⟨rfl, rfl⟩

/-- C7 counterexample: when the flow's upstream response object is absent,
a mutation naming `status_code` is not a silent no-op — the assignment
raises, the handler answers 500, and the flow is left unresumed. -/
theorem C7_absent_response_raises_counterexample :
    handleResume exStateNoResp (some exBodyStatus) = (.err 500, exStateNoResp) ∧
    heapGet (handleResume exStateNoResp (some exBodyStatus)).2.heap "f1" =
      some ⟨none, true, false⟩ :=
  ⟨rfl, rfl⟩

/-- C7 amended: with the upstream response object absent, a mutation is a
no-op on the response (which stays absent), but it raises — rather than
completing silently — exactly when it names `status_code` or `content` or
names `headers` with a nonempty header object; only a mutation with no
applicable field (or an empty `headers` object) completes without error. -/
theorem C7_absent_response_mutation_raises (m : Mutation) :
    (applyModifiedResponse none m.toJson).1 = none ∧
    ((applyModifiedResponse none m.toJson).2.isSome ↔
      (m.status_code.isSome ∨ m.content.isSome ∨
        ∃ hs, m.headers = some hs ∧ hs ≠ [])) := by
  obtain ⟨sc, hd, ct⟩ := m
  cases sc <;> cases ct <;> rcases hd with _ | (_ | ⟨p, hs⟩) <;>
    simp [Mutation.toJson, applyModifiedResponse, applyStatusField,
          applyHeadersField, applyContentField, setHeaderItems, pyIn, pyGet,
          lookupJ]

/-- C2 amended: the resume handler performs lookup, mutation application and
the resume-signal fire in that order, but no registry removal — it leaves
the key set unchanged; the entry's removal is the separate cleanup step the
resumed coordinator unit runs after observing the signal. -/
theorem C2_resume_order_amended (st : MState) (s : String) (fobj : FlowObj)
    (mod : Json) (resp' : Option Response) (hs : s ≠ "")
    (hreg : s ∈ st.registry) (hheap : heapGet st.heap s = some fobj)
    (happ : applyModifiedResponse fobj.response mod = (resp', none)) :
    handleResume st
        (some (.obj [("flow_id", .str s), ("modified_response", mod)])) =
      (.ok 200 (resumedBody s),
       { st with heap := heapSet st.heap s (fireResume { fobj with response := resp' }) }) ∧
    (∀ body : Option Json, (handleResume st body).2.registry = st.registry) ∧
    (∀ cst : CState, pcOf cst.pcs s = some .signaled →
      Step cst (doCleanup cst s) ∧
      (doCleanup cst s).core.registry = cst.core.registry.erase s) := by
  refine ⟨?_, fun body => handleResume_registry st body,
    fun cst hpc => ⟨Step.cleanup cst s hpc, rfl⟩⟩
  simp only [handleResume, lookupJ]
  simp [Json.truthy, hs, hreg, hheap, happ]

theorem C2_resume_order_amended_witness :
    handleResume exState
        (some (.obj [("flow_id", .str "f1"),
                     ("modified_response", .obj [("status_code", .num 201)])])) =
      (.ok 200 (resumedBody "f1"),
       { exState with
          heap := heapSet exState.heap "f1"
            (fireResume { exFlow with
              response := some ⟨.num 201, [("A", "x")], [104]⟩ }) }) :=
  (C2_resume_order_amended exState "f1" exFlow (.obj [("status_code", .num 201)])
    (some ⟨.num 201, [("A", "x")], [104]⟩) (by decide) (by decide) rfl rfl).1

/-! ## Header upsert lemmas for C1 -/

theorem filter_removeHeader_self (k : String) (l : List (String × String)) :
    (removeHeader k l).filter (fun p => p.1 == k) = [] := by
  induction l with
  | nil => rfl
  | cons hd tl ih =>
    by_cases hk : hd.1 = k
    · simpa [removeHeader, hk] using ih
    · simpa [removeHeader, List.filter_cons, hk] using ih

theorem filter_removeHeader_other (k j : String) (hne : j ≠ k)
    (l : List (String × String)) :
    (removeHeader k l).filter (fun p => p.1 == j) =
      l.filter (fun p => p.1 == j) := by
  induction l with
  | nil => rfl
  | cons hd tl ih =>
    by_cases hk : hd.1 = k
    · have hkj : ¬ (k = j) := fun hh => hne hh.symm
      have hj : ¬ (hd.1 = j) := by rw [hk]; exact hkj
      simp [removeHeader, hk, List.filter_cons, hj, hkj, ih]
    · simp [removeHeader, hk, List.filter_cons, ih]

theorem filter_setHeader_self (k v : String) (l : List (String × String)) :
    (setHeader k v l).filter (fun p => p.1 == k) = [(k, v)] := by
  induction l with
  | nil => simp [setHeader]
  | cons hd tl ih =>
    obtain ⟨k', v'⟩ := hd
    by_cases hk : k' = k
    · simp [setHeader, hk, List.filter_cons, filter_removeHeader_self]
    · simpa [setHeader, hk, List.filter_cons] using ih

theorem filter_setHeader_other (k v j : String) (hne : j ≠ k)
    (l : List (String × String)) :
    (setHeader k v l).filter (fun p => p.1 == j) =
      l.filter (fun p => p.1 == j) := by
  have hkj : ¬ (k = j) := fun hh => hne hh.symm
  induction l with
  | nil => simp [setHeader, hkj]
  | cons hd tl ih =>
    obtain ⟨k', v'⟩ := hd
    by_cases hk : k' = k
    · have hk'j : ¬ (k' = j) := by rw [hk]; exact hkj
      simp [setHeader, hk, List.filter_cons, hkj, hk'j,
        filter_removeHeader_other k j hne tl]
    · simp [setHeader, hk, List.filter_cons, ih]

theorem filter_applyHeaderList_not_named (hs : List (String × String)) :
    ∀ (base : List (String × String)) (k : String), k ∉ hs.map Prod.fst →
      (applyHeaderList base hs).filter (fun p => p.1 == k) =
        base.filter (fun p => p.1 == k) := by
  induction hs with
  | nil => intro base k _; rfl
  | cons hd tl ih =>
    intro base k hk
    have hk1 : k ≠ hd.1 := fun hh => hk (by simp [hh])
    have hk2 : k ∉ tl.map Prod.fst := fun hh => hk (by simp [hh])
    show (applyHeaderList (setHeader hd.1 hd.2 base) tl).filter _ = _
    rw [ih (setHeader hd.1 hd.2 base) k hk2]
    exact filter_setHeader_other hd.1 hd.2 k hk1 base

theorem filter_applyHeaderList_named (hs : List (String × String)) :
    ∀ (base : List (String × String)) (k v : String),
      (hs.map Prod.fst).Nodup → (k, v) ∈ hs →
      (applyHeaderList base hs).filter (fun p => p.1 == k) = [(k, v)] := by
  induction hs with
  | nil => intro base k v _ hmem; cases hmem
  | cons hd tl ih =>
    intro base k v hnd hmem
    simp only [List.map_cons, List.nodup_cons] at hnd
    obtain ⟨hnotin, hndtl⟩ := hnd
    rcases List.mem_cons.mp hmem with heq | hmemtl
    · subst heq
      show (applyHeaderList (setHeader k v base) tl).filter _ = _
      rw [filter_applyHeaderList_not_named tl (setHeader k v base) k
        (by simpa using hnotin)]
      exact filter_setHeader_self k v base
    · exact ih (setHeader hd.1 hd.2 base) k v hndtl hmemtl

/-- The header loop over a string-valued header object never raises and
folds `setHeader` over the items. -/
theorem setHeaderItems_wellTyped (hs : List (String × String)) :
    ∀ r : Response,
      setHeaderItems (some r) (hs.map (fun p => (p.1, Json.str p.2))) =
        (some { r with headers := applyHeaderList r.headers hs }, none) := by
  induction hs with
  | nil => intro r; rfl
  | cons hd tl ih =>
    intro r
    obtain ⟨hk, hv⟩ := hd
    simp only [List.map_cons, setHeaderItems]
    rw [ih]
    rfl

theorem applyStatusField_toJson (r : Response) (m : Mutation) :
    applyStatusField (some r) m.toJson =
      (some { r with status_code := match m.status_code with
                | some n => Json.num n
                | none => r.status_code }, none) := by
  obtain ⟨sc, hd, ct⟩ := m
  cases sc <;> cases hd <;> cases ct <;>
    simp [Mutation.toJson, applyStatusField, pyIn, pyGet, lookupJ]

theorem applyHeadersField_toJson (r : Response) (m : Mutation) :
    applyHeadersField (some r) m.toJson =
      (some { r with headers := match m.headers with
                | some hs => applyHeaderList r.headers hs
                | none => r.headers }, none) := by
  obtain ⟨sc, hd, ct⟩ := m
  cases sc <;> cases hd <;> cases ct <;>
    simp [Mutation.toJson, applyHeadersField, pyIn, pyGet, lookupJ,
      setHeaderItems_wellTyped]

theorem applyContentField_toJson (r : Response) (m : Mutation) :
    applyContentField (some r) m.toJson =
      (some { r with content := match m.content with
                | some s => strEncode s
                | none => r.content }, none) := by
  obtain ⟨sc, hd, ct⟩ := m
  cases sc <;> cases hd <;> cases ct <;>
    simp [Mutation.toJson, applyContentField, pyIn, pyGet, lookupJ]

/-- C1: mutation application (mock rule in mockk mode, `modified_response`
on resume) is a partial update. On a transaction with a response, every
well-formed mutation succeeds; a present `status_code`/`content` overwrites
that field and an absent one leaves it untouched; `headers` is a per-key
upsert: each named key ends up with exactly its mutation value, and keys
not named keep exactly their original entries. -/
theorem C1_mutation_partial_update (r : Response) (m : Mutation)
    (hnd : ∀ hs, m.headers = some hs → (hs.map Prod.fst).Nodup) :
    ∃ r', applyModifiedResponse (some r) m.toJson = (some r', none) ∧
      r'.status_code = (match m.status_code with
        | some n => Json.num n
        | none => r.status_code) ∧
      r'.content = (match m.content with
        | some s => strEncode s
        | none => r.content) ∧
      (m.headers = none → r'.headers = r.headers) ∧
      ∀ hs, m.headers = some hs →
        (∀ k v, (k, v) ∈ hs →
          r'.headers.filter (fun p => p.1 == k) = [(k, v)]) ∧
        (∀ k, k ∉ hs.map Prod.fst →
          r'.headers.filter (fun p => p.1 == k) =
            r.headers.filter (fun p => p.1 == k)) := by
  refine ⟨{ r with
      status_code := match m.status_code with
        | some n => Json.num n
        | none => r.status_code,
      headers := match m.headers with
        | some hs => applyHeaderList r.headers hs
        | none => r.headers,
      content := match m.content with
        | some s => strEncode s
        | none => r.content }, ?_, rfl, rfl, ?_, ?_⟩
  · simp only [applyModifiedResponse, applyStatusField_toJson,
      applyHeadersField_toJson, applyContentField_toJson]
  · intro hnone
    simp [hnone]
  · intro hs hsome
    simp only [hsome]
    exact ⟨fun k v hmem => filter_applyHeaderList_named hs r.headers k v
        (hnd hs hsome) hmem,
      fun k hk => filter_applyHeaderList_not_named hs r.headers k hk⟩

theorem C1_mutation_partial_update_witness :
    ∃ r', applyModifiedResponse (some exResp)
        (Mutation.toJson ⟨some 404, some [("X-Mock", "1")], some "body"⟩) =
        (some r', none) ∧
      r'.status_code = Json.num 404 ∧
      r'.content = strEncode "body" ∧
      r'.headers.filter (fun p => p.1 == "X-Mock") = [("X-Mock", "1")] ∧
      r'.headers.filter (fun p => p.1 == "A") =
        exResp.headers.filter (fun p => p.1 == "A") := by
  obtain ⟨r', happ, hst, hct, _, hhd⟩ :=
    C1_mutation_partial_update exResp ⟨some 404, some [("X-Mock", "1")], some "body"⟩
      (by intro hs h; cases h; decide)
  obtain ⟨hnamed, hunnamed⟩ := hhd [("X-Mock", "1")] rfl
  exact ⟨r', happ, hst, hct, hnamed "X-Mock" "1" (by decide),
    hunnamed "A" (by decide)⟩

/-! ## Registry/phase lemmas for C4 -/

theorem pcOf_setPc_self (pcs : List (String × Phase)) (id : String)
    (ph ph' : Phase) (h : pcOf pcs id = some ph') :
    pcOf (setPc pcs id ph) id = some ph := by
  induction pcs with
  | nil => simp [pcOf] at h
  | cons hd tl ih =>
    obtain ⟨k, w⟩ := hd
    by_cases hk : k = id
    · simp [pcOf, setPc, hk]
    · simp only [pcOf, setPc, if_neg hk] at h ⊢
      exact ih h

theorem pcOf_setPc_other (pcs : List (String × Phase)) (id j : String)
    (ph : Phase) (hne : j ≠ id) :
    pcOf (setPc pcs id ph) j = pcOf pcs j := by
  have hne' : ¬ (id = j) := fun hh => hne hh.symm
  induction pcs with
  | nil => rfl
  | cons hd tl ih =>
    obtain ⟨k, w⟩ := hd
    by_cases hk : k = id
    · subst hk
      simp [pcOf, setPc, hne']
    · simp only [setPc, if_neg hk, pcOf]
      split
      · rfl
      · exact ih

/-- Reachability invariant: the registry's key list never repeats a key,
and a key is present exactly while its coordinator unit is in the
interception window (registered / waiting / signal observed). -/
theorem reach_registry_window (st : CState) (h : Reachable st) :
    st.core.registry.Nodup ∧
    ∀ id, id ∈ st.core.registry ↔
      (pcOf st.pcs id = some .registered ∨ pcOf st.pcs id = some .waiting ∨
       pcOf st.pcs id = some .signaled) := by
  induction h with
  | init => exact ⟨List.nodup_nil, fun id => by simp [initC, pcOf]⟩
  | step s1 s2 _hr hstep ih =>
    obtain ⟨hnd, hiff⟩ := ih
    cases hstep with
    | arrive id r h1 _h2 =>
      refine ⟨hnd, fun j => ?_⟩
      by_cases hj : j = id
      · subst hj
        have hnotin : j ∉ s1.core.registry := fun hmem => by
          rcases (hiff j).mp hmem with h' | h' | h' <;>
            rw [h1] at h' <;> cases h'
        simp [doArrive, pcOf, hnotin]
      · have : ¬ (id = j) := fun hh => hj hh.symm
        simp only [doArrive, pcOf, if_neg this]
        exact hiff j
    | register id hpc =>
      have hnotin : id ∉ s1.core.registry := fun hmem => by
        rcases (hiff id).mp hmem with h' | h' | h' <;>
          rw [hpc] at h' <;> cases h'
      constructor
      · simp [doRegister, hnotin, List.nodup_append, hnd]
      · intro j
        by_cases hj : j = id
        · subst hj
          simp [doRegister, hnotin, pcOf_setPc_self s1.pcs j .registered .entered hpc]
        · simp only [doRegister, if_neg hnotin,
            pcOf_setPc_other s1.pcs id j .registered hj, List.mem_append,
            List.mem_singleton, hj, or_false]
          exact hiff j
    | startWait id hpc =>
      refine ⟨hnd, fun j => ?_⟩
      by_cases hj : j = id
      · subst hj
        have hin : j ∈ s1.core.registry := (hiff j).mpr (Or.inl hpc)
        simp [doStartWait, hin, pcOf_setPc_self s1.pcs j .waiting .registered hpc]
      · simp only [doStartWait, pcOf_setPc_other s1.pcs id j .waiting hj]
        exact hiff j
    | observe id hpc _hres =>
      refine ⟨hnd, fun j => ?_⟩
      by_cases hj : j = id
      · subst hj
        have hin : j ∈ s1.core.registry := (hiff j).mpr (Or.inr (Or.inl hpc))
        simp [doObserve, hin, pcOf_setPc_self s1.pcs j .signaled .waiting hpc]
      · simp only [doObserve, pcOf_setPc_other s1.pcs id j .signaled hj]
        exact hiff j
    | cleanup id hpc =>
      refine ⟨hnd.erase id, fun j => ?_⟩
      by_cases hj : j = id
      · subst hj
        have hout : j ∉ s1.core.registry.erase j := by
          intro hmem
          exact ((hnd.mem_erase_iff).mp hmem).1 rfl
        simp [doCleanup, hout, pcOf_setPc_self s1.pcs j .cleaned .signaled hpc]
      · have hmem : j ∈ s1.core.registry.erase id ↔ j ∈ s1.core.registry := by
          rw [hnd.mem_erase_iff]
          simp [hj]
        simp only [doCleanup, pcOf_setPc_other s1.pcs id j .cleaned hj]
        exact hmem.trans (hiff j)
    | control body =>
      constructor
      · show (handleResume s1.core body).2.registry.Nodup
        rw [handleResume_registry]
        exact hnd
      · intro j
        show j ∈ (handleResume s1.core body).2.registry ↔ _
        rw [handleResume_registry]
        exact hiff j

/-- C4 amended: for every reachable state, a transaction id is a registry
key iff its coordinator unit is inside the interception window — after
registration and before the post-resume cleanup. This is strictly wider
than "suspended awaiting the resume signal": the entry already exists while
the unit is still publishing the snapshot, and still exists after the
resume signal fired until the resumed unit deletes it. -/
theorem C4_registry_window (st : CState) (h : Reachable st) (id : String) :
    id ∈ st.core.registry ↔
      (pcOf st.pcs id = some .registered ∨ pcOf st.pcs id = some .waiting ∨
       pcOf st.pcs id = some .signaled) :=
  (reach_registry_window st h).2 id

theorem C4_registry_window_witness :
    "f1" ∈ initC.core.registry ↔
      (pcOf initC.pcs "f1" = some .registered ∨
       pcOf initC.pcs "f1" = some .waiting ∨
       pcOf initC.pcs "f1" = some .signaled) :=
  C4_registry_window initC Reachable.init "f1"

/-- C4 counterexample: a reachable state in which flow `"f1"` has already
been resumed (`wait_for_resume` returned — its unit observed the signal)
yet its entry is still in the registry; the claimed iff between registry
membership and "currently suspended awaiting the resume signal" fails. -/
theorem C4_entry_after_resume_counterexample :
    Reachable exSignaledSt ∧ "f1" ∈ exSignaledSt.core.registry ∧
    ¬ Suspended exSignaledSt "f1" ∧ resumedOf exSignaledSt "f1" = true := by
  have r1 : Reachable (doArrive initC "f1" exResp) :=
    Reachable.step _ _ Reachable.init (Step.arrive _ _ _ rfl rfl)
  have r2 : Reachable (doRegister (doArrive initC "f1" exResp) "f1") :=
    Reachable.step _ _ r1 (Step.register _ _ rfl)
  have r3 : Reachable (doStartWait (doRegister (doArrive initC "f1" exResp) "f1") "f1") :=
    Reachable.step _ _ r2 (Step.startWait _ _ rfl)
  have r4 : Reachable
      ⟨(handleResume (doStartWait (doRegister (doArrive initC "f1" exResp) "f1") "f1").core
          (some exBodyPlain)).2,
       (doStartWait (doRegister (doArrive initC "f1" exResp) "f1") "f1").pcs⟩ :=
    Reachable.step _ _ r3 (Step.control _ (some exBodyPlain))
  have r5 : Reachable exSignaledSt :=
    Reachable.step _ _ r4 (Step.observe _ "f1" rfl rfl)
  refine ⟨r5, ?_, ?_, rfl⟩
  · decide
  · intro hsusp
    cases hsusp

/-- C8: `GET /mock-match` answers 400 when the `method` or `url` query
parameter is missing (blank parameters are dropped by `parse_qs`, so they
read back as `""`); with both present it forwards the controller's 200
body as a 200, and any other outcome of reaching the controller — a
non-200 status, a connection failure, or a timeout — degrades to 404 with
body `{}`. -/
theorem C8_mock_match_behavior (params : List (String × List String))
    (ctrl : CtrlResult) :
    ((qsFirst params "method" = "" ∨ qsFirst params "url" = "") →
      handleMockMatch params ctrl = .err 400) ∧
    (qsFirst params "method" ≠ "" → qsFirst params "url" ≠ "" →
      (∀ b, ctrl = .ok200 b → handleMockMatch params ctrl = .ok 200 b) ∧
      ((∀ b, ctrl ≠ .ok200 b) →
        handleMockMatch params ctrl = .ok 404 (.obj []))) := by
  constructor
  · intro h
    unfold handleMockMatch
    rw [if_pos h]
  · intro hm hu
    have hcond : ¬ (qsFirst params "method" = "" ∨ qsFirst params "url" = "") :=
      fun h => h.elim hm hu
    constructor
    · rintro b rfl
      unfold handleMockMatch
      rw [if_neg hcond]
    · intro hne
      unfold handleMockMatch
      rw [if_neg hcond]
      cases ctrl with
      | ok200 b => exact absurd rfl (hne b)
      | non200 c => rfl
      | failure => rfl

theorem C8_mock_match_behavior_witness :
    handleMockMatch [("method", ["GET"]), ("url", ["https://api.example/v1"])]
      .failure = .ok 404 (.obj []) :=
  ((C8_mock_match_behavior [("method", ["GET"]), ("url", ["https://api.example/v1"])]
      .failure).2 (by decide) (by decide)).2 (fun b h => nomatch h)

/-! ## `parse_qs` grouping lemmas for C10 -/

theorem qs_filter_map_nil (k v : String) :
    ∀ acc : List (String × List String),
      acc.filter (fun p => p.1 == k) = [] →
      (acc.map (fun p => if p.1 = k then (p.1, p.2 ++ [v]) else p)).filter
          (fun p => p.1 == k) = [] := by
  intro acc
  induction acc with
  | nil => intro _; rfl
  | cons hd tl ih =>
    intro h
    by_cases hk : hd.1 = k
    · rw [List.filter_cons_of_pos (by simpa using hk)] at h
      cases h
    · rw [List.filter_cons_of_neg (by simpa using hk)] at h
      simpa [List.filter_cons, hk] using ih h

theorem qs_filter_map_update (k v : String) (vs : List String) :
    ∀ acc : List (String × List String),
      acc.filter (fun p => p.1 == k) = [(k, vs)] →
      (acc.map (fun p => if p.1 = k then (p.1, p.2 ++ [v]) else p)).filter
          (fun p => p.1 == k) = [(k, vs ++ [v])] := by
  intro acc
  induction acc with
  | nil => intro h; cases h
  | cons hd tl ih =>
    intro h
    by_cases hk : hd.1 = k
    · rw [List.filter_cons_of_pos (by simpa using hk)] at h
      obtain ⟨hhd, htl⟩ := List.cons_eq_cons.mp h
      subst hhd
      simp only [List.map_cons, if_pos hk]
      rw [List.filter_cons_of_pos (by simp [hk])]
      rw [qs_filter_map_nil k v tl htl]
      simp
    · rw [List.filter_cons_of_neg (by simpa using hk)] at h
      simpa [List.filter_cons, hk] using ih h

theorem qs_filter_map_other (k0 k : String) (hne : ¬ (k0 = k)) (v : String) :
    ∀ acc : List (String × List String),
      (acc.map (fun p => if p.1 = k0 then (p.1, p.2 ++ [v]) else p)).filter
          (fun p => p.1 == k) =
        acc.filter (fun p => p.1 == k) := by
  intro acc
  induction acc with
  | nil => rfl
  | cons hd tl ih =>
    by_cases hk0 : hd.1 = k0
    · have hkk : ¬ (hd.1 = k) := by rw [hk0]; exact hne
      simp only [List.map_cons, if_pos hk0]
      rw [List.filter_cons_of_neg (by simpa using hkk),
        List.filter_cons_of_neg (by simpa using hkk)]
      exact ih
    · simp only [List.map_cons, if_neg hk0, List.filter_cons, ih]

theorem qs_addQsPair_filter_other (k0 k : String) (hne : ¬ (k0 = k))
    (v : String) (acc : List (String × List String)) :
    (addQsPair acc (k0, v)).filter (fun p => p.1 == k) =
      acc.filter (fun p => p.1 == k) := by
  unfold addQsPair
  split
  · exact qs_filter_map_other k0 k hne v acc
  · rw [List.filter_append]
    rw [List.filter_cons_of_neg (by simpa using hne)]
    simp


theorem qs_addQsPair_filter_self (k v : String) (vs : List String)
    (acc : List (String × List String))
    (h : acc.filter (fun p => p.1 == k) = [(k, vs)]) :
    (addQsPair acc (k, v)).filter (fun p => p.1 == k) = [(k, vs ++ [v])] := by
  have hmem : (k, vs) ∈ acc :=
    List.mem_of_mem_filter (by rw [h]; exact List.mem_singleton_self _)
  unfold addQsPair
  split
  · exact qs_filter_map_update k v vs acc h
  · rename_i hfalse
    have hany : acc.any (fun p => p.1 = (k, v).1) = true := by
      simp only [List.any_eq_true]
      exact ⟨(k, vs), hmem, by simp⟩
    exact absurd hany hfalse

theorem qs_foldl_filter_present (q : List (String × String)) :
    ∀ (acc : List (String × List String)) (k : String) (vs : List String),
      acc.filter (fun p => p.1 == k) = [(k, vs)] →
      (q.foldl addQsPair acc).filter (fun p => p.1 == k) =
        [(k, vs ++ queryVals k q)] := by
  induction q with
  | nil =>
    intro acc k vs h
    simpa [queryVals] using h
  | cons hd tl ih =>
    intro acc k vs h
    obtain ⟨k0, v0⟩ := hd
    simp only [List.foldl_cons]
    by_cases hk : k0 = k
    · subst hk
      have h1 := qs_addQsPair_filter_self k0 v0 vs acc h
      rw [ih (addQsPair acc (k0, v0)) k0 (vs ++ [v0]) h1]
      have hqv : queryVals k0 ((k0, v0) :: tl) = v0 :: queryVals k0 tl := by
        simp [queryVals, List.filter_cons_of_pos]
      rw [hqv]
      simp
    · have h1 := (qs_addQsPair_filter_other k0 k hk v0 acc).trans h
      rw [ih (addQsPair acc (k0, v0)) k vs h1]
      have hqv : queryVals k ((k0, v0) :: tl) = queryVals k tl := by
        simp only [queryVals]
        rw [List.filter_cons_of_neg (by simpa using hk)]
      rw [hqv]

theorem qs_foldl_filter_absent (q : List (String × String)) :
    ∀ (acc : List (String × List String)) (k : String),
      acc.filter (fun p => p.1 == k) = [] →
      (q.foldl addQsPair acc).filter (fun p => p.1 == k) =
        (if k ∈ q.map Prod.fst then [(k, queryVals k q)] else []) := by
  induction q with
  | nil => intro acc k h; simpa using h
  | cons hd tl ih =>
    intro acc k h
    obtain ⟨k0, v0⟩ := hd
    simp only [List.foldl_cons]
    by_cases hk : k0 = k
    · subst hk
      have hany : acc.any (fun p => p.1 = (k0, v0).1) = false := by
        rw [List.any_eq_false]
        intro x hx
        have := List.filter_eq_nil_iff.mp h x hx
        simpa using this
      have hacc' : (addQsPair acc (k0, v0)).filter (fun p => p.1 == k0) =
          [(k0, [v0])] := by
        unfold addQsPair
        split
        · rename_i htrue
          rw [hany] at htrue
          cases htrue
        · rw [List.filter_append, h]
          simp
      rw [qs_foldl_filter_present tl (addQsPair acc (k0, v0)) k0 [v0] hacc']
      rw [if_pos (by simp)]
      have hqv : queryVals k0 ((k0, v0) :: tl) = v0 :: queryVals k0 tl := by
        simp [queryVals, List.filter_cons_of_pos]
      rw [hqv]
      simp
    · have h1 := (qs_addQsPair_filter_other k0 k hk v0 acc).trans h
      rw [ih (addQsPair acc (k0, v0)) k h1]
      have hkk : ¬ (k = k0) := fun hh => hk hh.symm
      have hqv : queryVals k ((k0, v0) :: tl) = queryVals k tl := by
        simp only [queryVals]
        rw [List.filter_cons_of_neg (by simpa using hk)]
      by_cases hm2 : k ∈ tl.map Prod.fst
      · rw [if_pos hm2, if_pos (by simp [hm2]), hqv]
      · rw [if_neg hm2, if_neg (by simp [hkk, hm2])]

theorem groupQuery_filter (q : List (String × String)) (k : String)
    (hk : k ∈ q.map Prod.fst) :
    (groupQuery q).filter (fun p => p.1 == k) = [(k, queryVals k q)] := by
  have h := qs_foldl_filter_absent q [] k rfl
  rw [if_pos hk] at h
  exact h

theorem query_prefix_append_inj (a b : String)
    (h : "query_" ++ a = "query_" ++ b) : a = b := by
  have h2 := congrArg String.data h
  rw [String.data_append, String.data_append] at h2
  exact String.ext (List.append_cancel_left h2)

theorem method_ne_query_prefix (k : String) :
    ("method" : String) ≠ "query_" ++ k := by
  intro hEq
  have h2 := congrArg String.data hEq
  rw [String.data_append] at h2
  have hm : ("method" : String).data = ['m', 'e', 't', 'h', 'o', 'd'] := rfl
  have hq : ("query_" : String).data = ['q', 'u', 'e', 'r', 'y', '_'] := rfl
  rw [hm, hq] at h2
  simp at h2

theorem host_ne_query_prefix (k : String) :
    ("host" : String) ≠ "query_" ++ k := by
  intro hEq
  have h2 := congrArg String.data hEq
  rw [String.data_append] at h2
  have hm : ("host" : String).data = ['h', 'o', 's', 't'] := rfl
  have hq : ("query_" : String).data = ['q', 'u', 'e', 'r', 'y', '_'] := rfl
  rw [hm, hq] at h2
  simp at h2

theorem path_ne_query_prefix (k : String) :
    ("path" : String) ≠ "query_" ++ k := by
  intro hEq
  have h2 := congrArg String.data hEq
  rw [String.data_append] at h2
  have hm : ("path" : String).data = ['p', 'a', 't', 'h'] := rfl
  have hq : ("query_" : String).data = ['q', 'u', 'e', 'r', 'y', '_'] := rfl
  rw [hm, hq] at h2
  simp at h2

/-- C10: the mockk-mode fingerprint sent to the controller carries
`method`, `host`, `path` and exactly one `query_<key>` entry per distinct
query key; for a key that occurs in the query (possibly repeatedly), that
single entry holds the key's first value — the later values of a repeated
key are dropped. -/
theorem C10_fingerprint_first_value (m h p : String)
    (q : List (String × String)) (k : String) (hk : k ∈ q.map Prod.fst) :
    (buildMockParams m h p q).filter (fun e => e.1 == "query_" ++ k) =
      [("query_" ++ k, (queryVals k q).headD "")] := by
  unfold buildMockParams
  rw [List.filter_append]
  have h1 : List.filter (fun e => e.1 == "query_" ++ k)
      [("method", m), ("host", h), ("path", p)] = [] := by
    rw [List.filter_cons_of_neg (by simpa using method_ne_query_prefix k),
      List.filter_cons_of_neg (by simpa using host_ne_query_prefix k),
      List.filter_cons_of_neg (by simpa using path_ne_query_prefix k)]
    rfl
  rw [h1, List.nil_append]
  have h2 : ((groupQuery q).map
        (fun e => ("query_" ++ e.1, e.2.headD ""))).filter
          (fun e => e.1 == "query_" ++ k) =
      ((groupQuery q).filter (fun e => e.1 == k)).map
        (fun e => ("query_" ++ e.1, e.2.headD "")) := by
    rw [List.filter_map]
    congr 1
    apply List.filter_congr
    intro x _
    show ("query_" ++ x.1 == "query_" ++ k) = (x.1 == k)
    by_cases hx : x.1 = k
    · simp [hx]
    · have : ¬ ("query_" ++ x.1 = "query_" ++ k) :=
        fun hh => hx (query_prefix_append_inj x.1 k hh)
      simp [hx, this]
  rw [h2, groupQuery_filter q k hk]
  rfl

theorem C10_fingerprint_first_value_witness :
    (buildMockParams "GET" "api.example" "/v1"
        [("a", "1"), ("b", "x"), ("a", "2")]).filter
      (fun e => e.1 == "query_" ++ "a") =
      [("query_" ++ "a",
        (queryVals "a" [("a", "1"), ("b", "x"), ("a", "2")]).headD "")] :=
  C10_fingerprint_first_value "GET" "api.example" "/v1"
    [("a", "1"), ("b", "x"), ("a", "2")] "a" (by decide)

/-! ## UTF-8 round-trip lemmas for C9 -/

theorem utf8Decode_ascii (b0 : Nat) (t : List Nat) (h : b0 < 0x80) :
    utf8Decode (b0 :: t) = (utf8Decode t).map (fun s => b0 :: s) := by
  rcases t with _ | ⟨b1, _ | ⟨b2, _ | ⟨b3, rest⟩⟩⟩
  all_goals conv_lhs => rw [utf8Decode]
  all_goals rw [if_pos h]

theorem utf8Decode_two (b0 b1 : Nat) (t : List Nat)
    (ha : ¬ (b0 < 0x80)) (hb : ¬ (b0 < 0xC2)) (hc : b0 < 0xE0)
    (hd : 0x80 ≤ b1 ∧ b1 < 0xC0) :
    utf8Decode (b0 :: b1 :: t) =
      (utf8Decode t).map (fun s => utf8Val2 b0 b1 :: s) := by
  rcases t with _ | ⟨b2, _ | ⟨b3, rest⟩⟩
  all_goals conv_lhs => rw [utf8Decode]
  all_goals rw [if_neg ha, if_neg hb, if_pos hc, if_pos hd]

theorem utf8Decode_three (b0 b1 b2 : Nat) (t : List Nat)
    (ha : ¬ (b0 < 0x80)) (hb : ¬ (b0 < 0xC2)) (hc : ¬ (b0 < 0xE0))
    (hd : b0 < 0xF0) (hcont : (0x80 ≤ b1 ∧ b1 < 0xC0) ∧ (0x80 ≤ b2 ∧ b2 < 0xC0))
    (hg : 0x800 ≤ utf8Val3 b0 b1 b2 ∧
      (utf8Val3 b0 b1 b2 < 0xD800 ∨ 0xE000 ≤ utf8Val3 b0 b1 b2)) :
    utf8Decode (b0 :: b1 :: b2 :: t) =
      (utf8Decode t).map (fun s => utf8Val3 b0 b1 b2 :: s) := by
  rcases t with _ | ⟨b3, rest⟩
  all_goals conv_lhs => rw [utf8Decode]
  all_goals rw [if_neg ha, if_neg hb, if_neg hc, if_pos hd, if_pos hcont,
    if_pos hg]

theorem utf8Decode_four (b0 b1 b2 b3 : Nat) (t : List Nat)
    (ha : ¬ (b0 < 0x80)) (hb : ¬ (b0 < 0xC2)) (hc : ¬ (b0 < 0xE0))
    (hd : ¬ (b0 < 0xF0)) (he : b0 < 0xF5)
    (hcont : (0x80 ≤ b1 ∧ b1 < 0xC0) ∧ (0x80 ≤ b2 ∧ b2 < 0xC0) ∧
      (0x80 ≤ b3 ∧ b3 < 0xC0))
    (hg : 0x10000 ≤ utf8Val4 b0 b1 b2 b3 ∧ utf8Val4 b0 b1 b2 b3 < 0x110000) :
    utf8Decode (b0 :: b1 :: b2 :: b3 :: t) =
      (utf8Decode t).map (fun s => utf8Val4 b0 b1 b2 b3 :: s) := by
  conv_lhs => rw [utf8Decode]
  rw [if_neg ha, if_neg hb, if_neg hc, if_neg hd, if_pos he, if_pos hcont,
    if_pos hg]

theorem utf8Decode_encodeChar (c : Nat) (hv : Nat.isValidChar c)
    (t : List Nat) :
    utf8Decode (utf8EncodeChar c ++ t) =
      (utf8Decode t).map (fun s => c :: s) := by
  have hv' : c < 0xd800 ∨ (0xdfff < c ∧ c < 0x110000) := hv
  by_cases h1 : c < 0x80
  · have he : utf8EncodeChar c = [c] := by
      unfold utf8EncodeChar
      rw [if_pos h1]
    rw [he]
    exact utf8Decode_ascii c t h1
  · by_cases h2 : c < 0x800
    · have he : utf8EncodeChar c = [0xC0 + c / 0x40, 0x80 + c % 0x40] := by
        unfold utf8EncodeChar
        rw [if_neg h1, if_pos h2]
      rw [he]
      show utf8Decode ((0xC0 + c / 0x40) :: (0x80 + c % 0x40) :: t) = _
      rw [utf8Decode_two _ _ t (by omega) (by omega) (by omega) (by omega)]
      have harith : utf8Val2 (0xC0 + c / 0x40) (0x80 + c % 0x40) = c := by
        unfold utf8Val2
        omega
      rw [harith]
    · by_cases h3 : c < 0x10000
      · have he : utf8EncodeChar c =
            [0xE0 + c / 0x1000, 0x80 + (c / 0x40) % 0x40, 0x80 + c % 0x40] := by
          unfold utf8EncodeChar
          rw [if_neg h1, if_neg h2, if_pos h3]
        rw [he]
        show utf8Decode ((0xE0 + c / 0x1000) :: (0x80 + (c / 0x40) % 0x40) ::
          (0x80 + c % 0x40) :: t) = _
        have harith : utf8Val3 (0xE0 + c / 0x1000) (0x80 + (c / 0x40) % 0x40)
            (0x80 + c % 0x40) = c := by
          unfold utf8Val3
          omega
        rw [utf8Decode_three _ _ _ t (by omega) (by omega) (by omega) (by omega)
          (by omega) (by rw [harith]; omega)]
        rw [harith]
      · have h4 : c < 0x110000 := by omega
        have he : utf8EncodeChar c =
            [0xF0 + c / 0x40000, 0x80 + (c / 0x1000) % 0x40,
             0x80 + (c / 0x40) % 0x40, 0x80 + c % 0x40] := by
          unfold utf8EncodeChar
          rw [if_neg h1, if_neg h2, if_neg h3]
        rw [he]
        show utf8Decode ((0xF0 + c / 0x40000) :: (0x80 + (c / 0x1000) % 0x40) ::
          (0x80 + (c / 0x40) % 0x40) :: (0x80 + c % 0x40) :: t) = _
        have harith : utf8Val4 (0xF0 + c / 0x40000) (0x80 + (c / 0x1000) % 0x40)
            (0x80 + (c / 0x40) % 0x40) (0x80 + c % 0x40) = c := by
          unfold utf8Val4
          omega
        rw [utf8Decode_four _ _ _ _ t (by omega) (by omega) (by omega) (by omega)
          (by omega) (by omega) (by rw [harith]; omega)]
        rw [harith]

theorem utf8Decode_utf8Encode (s : List Nat)
    (hv : ∀ c ∈ s, Nat.isValidChar c) :
    utf8Decode (utf8Encode s) = some s := by
  induction s with
  | nil => rfl
  | cons c cs ih =>
    have hc : Nat.isValidChar c := hv c (List.mem_cons_self c cs)
    have hcs : ∀ x ∈ cs, Nat.isValidChar x := fun x hx =>
      hv x (List.mem_cons_of_mem c hx)
    have henc : utf8Encode (c :: cs) = utf8EncodeChar c ++ utf8Encode cs := by
      simp [utf8Encode]
    rw [henc, utf8Decode_encodeChar c hc (utf8Encode cs), ih hcs]
    rfl

theorem utf8EncodeChar_ne_nil (c : Nat) : utf8EncodeChar c ≠ [] := by
  unfold utf8EncodeChar
  split
  · simp
  · split
    · simp
    · split
      · simp
      · simp

/-- C9: content decoding tries strict UTF-8 first, then total Latin-1 (so
the hex fallback is never required and decoding succeeds on every byte
sequence — on non-UTF-8 bytes it returns the Latin-1 reading, which maps
byte n to code point n); and decoding inverts UTF-8 encoding on every
(valid-Unicode) string. -/
theorem C9_decode_content_roundtrip :
    (∀ b : List Nat, b ≠ [] → utf8Decode b = none → decode_content b = b) ∧
    (∀ s : String, decode_content (strEncode s) = strCodes s) := by
  constructor
  · intro b hne hdec
    unfold decode_content
    rw [if_neg (by simpa using hne), hdec]
    rfl
  · intro s
    rcases hd : s.data with _ | ⟨c, cs⟩
    · have hnil : strEncode s = [] := by
        simp [strEncode, strCodes, hd, utf8Encode]
      have hnil2 : strCodes s = [] := by simp [strCodes, hd]
      rw [hnil, hnil2]
      rfl
    · have hv : ∀ x ∈ strCodes s, Nat.isValidChar x := by
        intro x hx
        simp only [strCodes, List.mem_map] at hx
        obtain ⟨ch, _, hch⟩ := hx
        rw [← hch]
        exact ch.valid
      have hdec := utf8Decode_utf8Encode (strCodes s) hv
      have hne : strEncode s ≠ [] := by
        have h1 : utf8EncodeChar c.toNat ≠ [] := utf8EncodeChar_ne_nil _
        simp [strEncode, strCodes, hd, utf8Encode, h1]
      unfold decode_content
      rw [if_neg (by simpa using hne)]
      rw [show utf8Encode (strCodes s) = strEncode s from rfl] at hdec
      rw [hdec]

theorem C9_decode_content_roundtrip_witness :
    decode_content (strEncode "ok") = strCodes "ok" ∧
    decode_content [255] = [255] :=
  ⟨C9_decode_content_roundtrip.2 "ok",
   C9_decode_content_roundtrip.1 [255] (by decide) rfl⟩
